import Mathlib

/-!
# Verification of the Sudoku checker/solver (`src/sudoku.c`)

A shallow embedding of the C program.  The grid is modelled as a total
function from 1-based (row, col) to `Int` (cell values are C `int`s); the
program only ever touches indices in `[1, psize]`.  The concurrent solver
passes are modelled by the sequentialisation in thread-launch order
(thread 0 = all rows, thread 1 = all columns, threads 2..psize+1 = one
subgrid each), which is one legal interleaving of the pthread program.
-/

/-- The Sudoku grid: `grid r c` is the cell at 1-based row `r`, column `c`. -/
def Grid : Type := Nat → Nat → Int

/-- Point update `grid[r][c] = v`. -/
def gridSet (g : Grid) (r c : Nat) (v : Int) : Grid :=
  fun i j => if i = r ∧ j = c then v else g i j

/-- The list of (row, col) positions of row `row` scanned by the C loops
`for (col = 1; col <= psize; col++)`. -/
def rowPositions (row psize : Nat) : List (Nat × Nat) :=
  (List.range psize).map (fun k => (row, k + 1))

/-- The list of (row, col) positions of column `col` scanned by the C loops
`for (row = 1; row <= psize; row++)`. -/
def colPositions (col psize : Nat) : List (Nat × Nat) :=
  (List.range psize).map (fun k => (k + 1, col))

/-- The integer square root, modelling the C `subgrid_size = sqrt(psize)`
(the C `sqrt` from `math.h` is exact on the perfect-square puzzle sizes the
program supports): the largest `k` with `k * k ≤ n`. -/
def intSqrt (n : Nat) : Nat :=
  ((List.range (n + 1)).filter (fun k => decide (k * k ≤ n))).length - 1

/-- The subgrid start row computed by `check_subgrid` / `solve_subgrid_worker`
from the 0-based subgrid index: `(idx / subgrid_size) * subgrid_size + 1`. -/
def subgridStartRow (idx psize : Nat) : Nat :=
  (idx / intSqrt psize) * intSqrt psize + 1

/-- The subgrid start column: `(idx % subgrid_size) * subgrid_size + 1`. -/
def subgridStartCol (idx psize : Nat) : Nat :=
  (idx % intSqrt psize) * intSqrt psize + 1

/-- Row-major positions of the subgrid with top-left `(start_row, start_col)`,
as scanned by the nested `r_off`/`c_off` loops in the C code. -/
def subgridPositions (start_row start_col psize : Nat) : List (Nat × Nat) :=
  ((List.range (intSqrt psize)).map (fun r =>
    (List.range (intSqrt psize)).map (fun c =>
      (start_row + r, start_col + c)))).flatten

/-- The values of a unit, in scan order. -/
def unitCells (g : Grid) (ps : List (Nat × Nat)) : List Int :=
  ps.map (fun p => g p.1 p.2)

/-- The validation scan shared by `is_row_valid`, `is_col_valid` and
`is_subgrid_valid`: walk the cells keeping the seen-set; reject a value
that is `< 1`, `> psize` or already seen. -/
def scanValid (psize : Nat) : List Int → List Int → Bool
  | [], _ => true
  | num :: rest, seen =>
    if num < 1 ∨ num > (psize : Int) ∨ num ∈ seen then false
    else scanValid psize rest (num :: seen)

/-- The function `is_row_valid(row, psize, grid)` from `src/sudoku.c`. -/
def is_row_valid (row psize : Nat) (g : Grid) : Bool :=
  scanValid psize (unitCells g (rowPositions row psize)) []

/-- The function `is_col_valid(col, psize, grid)` from `src/sudoku.c`. -/
def is_col_valid (col psize : Nat) (g : Grid) : Bool :=
  scanValid psize (unitCells g (colPositions col psize)) []

/-- The function `is_subgrid_valid(start_row, start_col, psize, grid)` from
`src/sudoku.c`. -/
def is_subgrid_valid (start_row start_col psize : Nat) (g : Grid) : Bool :=
  scanValid psize (unitCells g (subgridPositions start_row start_col psize)) []

/-- The `check_rows` worker: valid iff every row `1..psize` is valid. -/
def check_rows (psize : Nat) (g : Grid) : Bool :=
  (List.range psize).all (fun i => is_row_valid (i + 1) psize g)

/-- The `check_cols` worker: valid iff every column `1..psize` is valid. -/
def check_cols (psize : Nat) (g : Grid) : Bool :=
  (List.range psize).all (fun i => is_col_valid (i + 1) psize g)

/-- The `check_subgrid` worker for thread id `id` (ids 2..psize+1):
validates subgrid `id - 2`. -/
def check_subgrid (id psize : Nat) (g : Grid) : Bool :=
  is_subgrid_valid (subgridStartRow (id - 2) psize)
    (subgridStartCol (id - 2) psize) psize g

/-- The outcome written into `thread_results[i]` by validation thread `i`
(1 = valid, as a Bool). -/
def validationOutcome (psize : Nat) (g : Grid) (i : Nat) : Bool :=
  if i = 0 then check_rows psize g
  else if i = 1 then check_cols psize g
  else check_subgrid i psize g

/-- The aggregation loop at the end of `checkPuzzle`: `valid` is true iff
every one of the `psize + 2` thread results is nonzero. -/
def validateAll (psize : Nat) (g : Grid) : Bool :=
  (List.range (psize + 2)).all (validationOutcome psize g)

/-- The scan state accumulated by `solve_row` / `solve_col` / `solve_subgrid`:
zero count, position of the last zero seen, running sum of in-range values,
and the seen-set (the C `bool seen[]` array, as the list of values marked). -/
structure ScanState where
  zero_count : Nat
  zero_row : Nat
  zero_col : Nat
  sum : Int
  seen : List Int
  deriving Repr, DecidableEq

/-- One iteration of the solver scan loop at position `p`. -/
def scanStep (psize : Nat) (g : Grid) (st : ScanState) (p : Nat × Nat) :
    ScanState :=
  let num := g p.1 p.2
  if num = 0 then
    { st with zero_count := st.zero_count + 1, zero_row := p.1,
              zero_col := p.2 }
  else if 0 < num ∧ num ≤ (psize : Int) then
    { st with seen := num :: st.seen, sum := st.sum + num }
  else st

/-- The full solver scan of one unit, in the C scan order. -/
def scanUnit (psize : Nat) (g : Grid) (ps : List (Nat × Nat)) : ScanState :=
  ps.foldl (scanStep psize g) ⟨0, 0, 0, 0, []⟩

/-- The target sum `expected_sum = (long)psize * (psize + 1) / 2` (exact
division). -/
def expectedSum (psize : Nat) : Int :=
  ((psize * (psize + 1) / 2 : Nat) : Int)

/-- The shared body of `solve_row` / `solve_col` / `solve_subgrid`: scan the
unit; if exactly one zero was found and the missing value
`expected_sum - sum` is in `[1, psize]` and unseen, write it into the zero
cell and report 1; otherwise leave the grid alone and report 0. -/
def solveUnit (psize : Nat) (g : Grid) (ps : List (Nat × Nat)) : Grid × Nat :=
  let st := scanUnit psize g ps
  if st.zero_count = 1 then
    let missing := expectedSum psize - st.sum
    if 0 < missing ∧ missing ≤ (psize : Int) ∧ missing ∉ st.seen then
      (gridSet g st.zero_row st.zero_col missing, 1)
    else (g, 0)
  else (g, 0)

/-- The function `solve_row(row, psize, grid)` from `src/sudoku.c`; the
returned pair is
(the grid after the call, the C return value). -/
def solve_row (row psize : Nat) (g : Grid) : Grid × Nat :=
  solveUnit psize g (rowPositions row psize)

/-- The function `solve_col(col, psize, grid)` from `src/sudoku.c`. -/
def solve_col (col psize : Nat) (g : Grid) : Grid × Nat :=
  solveUnit psize g (colPositions col psize)

/-- The function `solve_subgrid(start_row, start_col, psize, grid)` from
`src/sudoku.c`. -/
def solve_subgrid (start_row start_col psize : Nat) (g : Grid) : Grid × Nat :=
  solveUnit psize g (subgridPositions start_row start_col psize)

/-- The `solve_rows_worker` thread: runs `solve_row` on rows 1..psize in
order, accumulating its local fill count. -/
def solve_rows_worker (psize : Nat) (g : Grid) : Grid × Nat :=
  (List.range psize).foldl
    (fun gc k =>
      let r := solve_row (k + 1) psize gc.1
      (r.1, gc.2 + r.2))
    (g, 0)

/-- The `solve_cols_worker` thread: runs `solve_col` on columns 1..psize. -/
def solve_cols_worker (psize : Nat) (g : Grid) : Grid × Nat :=
  (List.range psize).foldl
    (fun gc k =>
      let r := solve_col (k + 1) psize gc.1
      (r.1, gc.2 + r.2))
    (g, 0)

/-- The `solve_subgrid_worker` threads taken in id order (ids 2..psize+1,
i.e. subgrid indices 0..psize-1). -/
def solve_subgrids_workers (psize : Nat) (g : Grid) : Grid × Nat :=
  (List.range psize).foldl
    (fun gc idx =>
      let r := solve_subgrid (subgridStartRow idx psize)
        (subgridStartCol idx psize) psize gc.1
      (r.1, gc.2 + r.2))
    (g, 0)

/-- One pass of the solve loop: all `psize + 2` solver threads, in
thread-launch order, returning the mutated grid and the value of
`zeros_filled_in_pass` accumulated under the lock. -/
def solvePass (psize : Nat) (g : Grid) : Grid × Nat :=
  let r0 := solve_rows_worker psize g
  let r1 := solve_cols_worker psize r0.1
  let r2 := solve_subgrids_workers psize r1.1
  (r2.1, r0.2 + r1.2 + r2.2)

/-- The completeness scan of `checkPuzzle`: `complete` is true iff no cell
`grid[i][j]`, `1 ≤ i, j ≤ psize`, is zero. -/
def gridComplete (psize : Nat) (g : Grid) : Bool :=
  (List.range psize).all (fun i =>
    (List.range psize).all (fun j => !(g (i + 1) (j + 1) == 0)))

/-- The number of zero cells in the `psize × psize` grid (the solve loop's
termination measure). -/
def numZeros (psize : Nat) (g : Grid) : Nat :=
  ((Finset.Icc 1 psize ×ˢ Finset.Icc 1 psize).filter
    (fun p => g p.1 p.2 = 0)).card

/-- The `do { ... } while (zeros_filled_in_pass > 0)` loop, with explicit
fuel bounding the number of passes. -/
def solveLoopFuel (psize : Nat) : Nat → Grid → Grid
  | 0, g => g
  | fuel + 1, g =>
    let r := solvePass psize g
    if r.2 > 0 then solveLoopFuel psize fuel r.1 else r.1

/-- The solve loop of `checkPuzzle`: `numZeros psize g + 1` passes always
suffice, because a pass with a positive counter strictly decreases
`numZeros`. -/
def solveLoop (psize : Nat) (g : Grid) : Grid :=
  solveLoopFuel psize (numZeros psize g + 1) g

/-- The result of `checkPuzzle`: the grid as left by the call (it is mutated
in place in C) and the two output booleans. -/
structure CheckResult where
  grid : Grid
  complete : Bool
  valid : Bool

/-- The function `checkPuzzle(psize, grid, &complete, &valid)` from
`src/sudoku.c`:
scan for completeness; if incomplete, run the solve loop to convergence and
re-scan; finally run the `psize + 2` validation threads and AND their
outcomes. -/
def checkPuzzle (psize : Nat) (g : Grid) : CheckResult :=
  if gridComplete psize g then
    { grid := g, complete := true, valid := validateAll psize g }
  else
    let g2 := solveLoop psize g
    { grid := g2, complete := gridComplete psize g2,
      valid := validateAll psize g2 }

/-- The reference unit contents `[1, …, psize]` as `Int`s. -/
def targetList (psize : Nat) : List Int :=
  (List.range psize).map (fun k : Nat => ((k : Int) + 1))

/-- The zero positions of a unit, in scan order. -/
def zerosOf (g : Grid) (ps : List (Nat × Nat)) : List (Nat × Nat) :=
  ps.filter (fun p => g p.1 p.2 == 0)

/-- The in-range values of a unit, in scan order: exactly the values the C
solver scan adds to `sum` and marks in `seen`. -/
def inRangeCells (psize : Nat) (g : Grid) (ps : List (Nat × Nat)) :
    List Int :=
  (unitCells g ps).filter
    (fun x => decide (0 < x) && decide (x ≤ (psize : Int)))

/-- The write-discipline of the solver: `g2` differs from `g1` only at
in-range cells that were zero in `g1` and now hold a value in `[1, psize]`. -/
def FramePreserved (psize : Nat) (g1 g2 : Grid) : Prop :=
  ∀ i j, g2 i j ≠ g1 i j →
    1 ≤ i ∧ i ≤ psize ∧ 1 ≤ j ∧ j ≤ psize ∧ g1 i j = 0 ∧
      1 ≤ g2 i j ∧ g2 i j ≤ (psize : Int)

/-- Scenario A of the spec: a fully filled, valid 4×4 grid. -/
def validGrid4 : Grid := fun i j =>
  (([[1, 2, 3, 4], [3, 4, 1, 2], [2, 1, 4, 3], [4, 3, 2, 1]] :
    List (List Int)).getD (i - 1) []).getD (j - 1) 0

/-- A 4×4 grid whose first row is `(0, 1, 2, 4)` (one zero, rest distinct
and in range). -/
def nearRowGrid4 : Grid := fun i j =>
  if i = 1 then (([0, 1, 2, 4] : List Int).getD (j - 1) 0) else 1

/-- A grid whose first row is `(0, 2, 2, 2)`: one zero and duplicated
in-range values. -/
def dupRowGrid4 : Grid := fun _ j => if j = 1 then 0 else 2

/-- The all-empty 4×4 grid. -/
def emptyGrid4 : Grid := fun _ _ => 0

/-- A 4×4 grid in which every row, column and subgrid contains at least
two zeros (its top half is filled, its bottom half is empty — in fact
every unit here has 2 or 4 zeros). -/
def stuckGrid4 : Grid := fun i j =>
  (([[1, 2, 3, 4], [3, 4, 1, 2], [0, 0, 0, 0], [0, 0, 0, 0]] :
    List (List Int)).getD (i - 1) []).getD (j - 1) 0

/-- A second copy of the valid completed 4×4 grid, used to witness C8. -/
def completeGrid4 : Grid := fun i j =>
  (([[1, 2, 3, 4], [3, 4, 1, 2], [2, 1, 4, 3], [4, 3, 2, 1]] :
    List (List Int)).getD (i - 1) []).getD (j - 1) 0

/-- Scenario C of the spec: a 4×4 grid whose only zero is at (1, 1). -/
def scenCGrid4 : Grid := fun i j =>
  (([[0, 2, 3, 4], [3, 4, 1, 2], [2, 1, 4, 3], [4, 3, 2, 1]] :
    List (List Int)).getD (i - 1) []).getD (j - 1) 0

theorem mem_targetList {psize : Nat} {x : Int} :
    x ∈ targetList psize ↔ 1 ≤ x ∧ x ≤ (psize : Int) := by
  constructor
  · intro h
    obtain ⟨k, hk, rfl⟩ := List.mem_map.1 h
    have := List.mem_range.1 hk
    omega
  · rintro ⟨h1, h2⟩
    refine List.mem_map.2
      ⟨(x - 1).toNat, List.mem_range.2 (by omega), by omega⟩

theorem targetList_nodup (psize : Nat) : (targetList psize).Nodup := by
  refine List.Nodup.map ?_ (List.nodup_range psize)
  intro a b h
  dsimp only at h
  omega

theorem targetList_length (psize : Nat) : (targetList psize).length = psize := by
  simp [targetList]

theorem targetList_sum (psize : Nat) :
    (targetList psize).sum = expectedSum psize := by
  induction psize with
  | zero => simp [targetList, expectedSum]
  | succ n ih =>
    have : targetList (n + 1) = targetList n ++ [(n : Int) + 1] := by
      simp [targetList, List.range_succ]
    rw [this, List.sum_append, ih]
    have hmul : (n + 1) * (n + 1 + 1) = n * (n + 1) + 2 * (n + 1) := by ring
    simp only [List.sum_cons, List.sum_nil, expectedSum]
    omega

theorem scanValid_eq_true {psize : Nat} (cells : List Int) :
    ∀ seen : List Int, scanValid psize cells seen = true ↔
      ((∀ x ∈ cells, 1 ≤ x ∧ x ≤ (psize : Int)) ∧ cells.Nodup ∧
        ∀ x ∈ cells, x ∉ seen) := by
  induction cells with
  | nil => intro seen; simp only [scanValid, List.not_mem_nil, false_implies, implies_true, List.nodup_nil, and_self]
  | cons num rest ih =>
    intro seen
    rw [scanValid]
    by_cases h : num < 1 ∨ num > (psize : Int) ∨ num ∈ seen
    · rw [if_pos h]
      simp only [Bool.false_eq_true, false_iff]
      rintro ⟨hr, hn, hs⟩
      rcases h with h | h | h
      · have := hr num (by simp)
        omega
      · have := hr num (by simp)
        omega
      · exact hs num (by simp) h
    · rw [if_neg h, ih (num :: seen)]
      push_neg at h
      obtain ⟨h1, h2, h3⟩ := h
      constructor
      · rintro ⟨hr, hn, hs⟩
        refine ⟨?_, ?_, ?_⟩
        · intro x hx
          rcases List.mem_cons.1 hx with rfl | hx
          · exact ⟨by omega, by omega⟩
          · exact hr x hx
        · refine List.nodup_cons.2 ⟨fun hmem => ?_, hn⟩
          exact hs num hmem (List.mem_cons_self num seen)
        · intro x hx
          rcases List.mem_cons.1 hx with rfl | hx
          · exact h3
          · intro hxs
            exact hs x hx (List.mem_cons_of_mem num hxs)
      · rintro ⟨hr, hn, hs⟩
        refine ⟨fun x hx => hr x (List.mem_cons_of_mem num hx),
          (List.nodup_cons.1 hn).2, ?_⟩
        intro x hx hxs
        rcases List.mem_cons.1 hxs with rfl | hxs
        · exact (List.nodup_cons.1 hn).1 hx
        · exact hs x (List.mem_cons_of_mem num hx) hxs

theorem scanValid_perm {psize : Nat} {cells : List Int}
    (hlen : cells.length = psize) :
    scanValid psize cells [] = true ↔ cells.Perm (targetList psize) := by
  rw [scanValid_eq_true]
  constructor
  · rintro ⟨hr, hn, -⟩
    have hsub : cells ⊆ targetList psize := fun x hx =>
      mem_targetList.2 (hr x hx)
    exact (List.subperm_of_subset hn hsub).perm_of_length_le
      (by rw [hlen, targetList_length])
  · intro hp
    exact ⟨fun x hx => mem_targetList.1 (hp.subset hx),
      hp.nodup_iff.2 (targetList_nodup psize), by simp⟩

theorem unitCells_length (g : Grid) (ps : List (Nat × Nat)) :
    (unitCells g ps).length = ps.length := by
  simp [unitCells]

theorem rowPositions_length (row psize : Nat) :
    (rowPositions row psize).length = psize := by
  simp [rowPositions]

theorem colPositions_length (col psize : Nat) :
    (colPositions col psize).length = psize := by
  simp [colPositions]

theorem subgridPositions_length (sr sc psize : Nat) :
    (subgridPositions sr sc psize).length =
      intSqrt psize * intSqrt psize := by
  simp [subgridPositions, List.length_flatten, Function.comp_def]

theorem is_row_valid_iff {row psize : Nat} {g : Grid} :
    is_row_valid row psize g = true ↔
      (unitCells g (rowPositions row psize)).Perm (targetList psize) :=
  scanValid_perm (by rw [unitCells_length, rowPositions_length])

theorem is_col_valid_iff {col psize : Nat} {g : Grid} :
    is_col_valid col psize g = true ↔
      (unitCells g (colPositions col psize)).Perm (targetList psize) :=
  scanValid_perm (by rw [unitCells_length, colPositions_length])

theorem is_subgrid_valid_iff {sr sc psize : Nat} {g : Grid}
    (hsq : intSqrt psize * intSqrt psize = psize) :
    is_subgrid_valid sr sc psize g = true ↔
      (unitCells g (subgridPositions sr sc psize)).Perm (targetList psize) :=
  scanValid_perm (by rw [unitCells_length, subgridPositions_length, hsq])

theorem scanUnit_foldl (psize : Nat) (g : Grid) :
    ∀ (ps : List (Nat × Nat)) (st : ScanState),
      (ps.foldl (scanStep psize g) st).zero_count
          = st.zero_count + (zerosOf g ps).length ∧
      (ps.foldl (scanStep psize g) st).sum
          = st.sum + (inRangeCells psize g ps).sum ∧
      (ps.foldl (scanStep psize g) st).seen
          = (inRangeCells psize g ps).reverse ++ st.seen ∧
      (zerosOf g ps = [] →
        (ps.foldl (scanStep psize g) st).zero_row = st.zero_row ∧
        (ps.foldl (scanStep psize g) st).zero_col = st.zero_col) := by
  intro ps
  induction ps with
  | nil =>
    intro st
    simp [zerosOf, inRangeCells, unitCells]
  | cons p rest ih =>
    intro st
    by_cases h0 : g p.1 p.2 = 0
    · have hz : zerosOf g (p :: rest) = p :: zerosOf g rest := by
        simp [zerosOf, List.filter_cons, h0]
      have hi : inRangeCells psize g (p :: rest)
          = inRangeCells psize g rest := by
        simp [inRangeCells, unitCells, List.filter_cons, h0]
      have hstep : scanStep psize g st p
          = { st with zero_count := st.zero_count + 1, zero_row := p.1,
                      zero_col := p.2 } := by
        simp [scanStep, h0]
      obtain ⟨ih1, ih2, ih3, -⟩ := ih (scanStep psize g st p)
      refine ⟨?_, ?_, ?_, ?_⟩
      · rw [List.foldl_cons, ih1, hstep, hz]
        simp [Nat.add_assoc, Nat.add_comm 1]
      · rw [List.foldl_cons, ih2, hstep, hi]
      · rw [List.foldl_cons, ih3, hstep, hi]
      · intro hcon
        rw [hz] at hcon
        cases hcon
    · by_cases hr : 0 < g p.1 p.2 ∧ g p.1 p.2 ≤ (psize : Int)
      · have hz : zerosOf g (p :: rest) = zerosOf g rest := by
          simp [zerosOf, List.filter_cons, h0]
        have hi : inRangeCells psize g (p :: rest)
            = g p.1 p.2 :: inRangeCells psize g rest := by
          simp [inRangeCells, unitCells, List.filter_cons, h0, hr.1, hr.2]
        have hstep : scanStep psize g st p
            = { st with seen := g p.1 p.2 :: st.seen,
                        sum := st.sum + g p.1 p.2 } := by
          simp [scanStep, h0, hr]
        obtain ⟨ih1, ih2, ih3, ih4⟩ := ih (scanStep psize g st p)
        refine ⟨?_, ?_, ?_, ?_⟩
        · rw [List.foldl_cons, ih1, hstep, hz]
        · rw [List.foldl_cons, ih2, hstep, hi]
          simp [List.sum_cons, add_assoc, add_comm (g p.1 p.2)]
        · rw [List.foldl_cons, ih3, hstep, hi]
          simp
        · intro hcon
          rw [hz] at hcon
          obtain ⟨h4a, h4b⟩ := ih4 hcon
          rw [List.foldl_cons, hstep]
          rw [hstep] at h4a h4b
          exact ⟨by simpa using h4a, by simpa using h4b⟩
      · have hz : zerosOf g (p :: rest) = zerosOf g rest := by
          simp [zerosOf, List.filter_cons, h0]
        have hi : inRangeCells psize g (p :: rest)
            = inRangeCells psize g rest := by
          have : ¬(decide (0 < g p.1 p.2)
              && decide (g p.1 p.2 ≤ (psize : Int))) = true := by
            simpa [Bool.and_eq_true, decide_eq_true_iff] using hr
          simp [inRangeCells, unitCells, List.filter_cons, this]
        have hstep : scanStep psize g st p = st := by
          simp [scanStep, h0, hr]
        obtain ⟨ih1, ih2, ih3, ih4⟩ := ih (scanStep psize g st p)
        rw [hstep] at ih1 ih2 ih3 ih4
        refine ⟨?_, ?_, ?_, ?_⟩
        · rw [List.foldl_cons, hstep, ih1, hz]
        · rw [List.foldl_cons, hstep, ih2, hi]
        · rw [List.foldl_cons, hstep, ih3, hi]
        · intro hcon
          rw [hz] at hcon
          obtain ⟨h4a, h4b⟩ := ih4 hcon
          rw [List.foldl_cons, hstep]
          exact ⟨h4a, h4b⟩

theorem scanUnit_single_zero (psize : Nat) (g : Grid) :
    ∀ (ps : List (Nat × Nat)) (st : ScanState) (q : Nat × Nat),
      zerosOf g ps = [q] →
        (ps.foldl (scanStep psize g) st).zero_row = q.1 ∧
        (ps.foldl (scanStep psize g) st).zero_col = q.2 := by
  intro ps
  induction ps with
  | nil =>
    intro st q h
    simp [zerosOf] at h
  | cons p rest ih =>
    intro st q h
    by_cases h0 : g p.1 p.2 = 0
    · have hz : zerosOf g (p :: rest) = p :: zerosOf g rest := by
        simp [zerosOf, List.filter_cons, h0]
      rw [hz] at h
      obtain ⟨rfl, hrest⟩ : p = q ∧ zerosOf g rest = [] := by
        constructor
        · exact (List.cons.injEq _ _ _ _ ▸ h).1
        · exact (List.cons.injEq _ _ _ _ ▸ h).2
      have hstep : scanStep psize g st p
          = { st with zero_count := st.zero_count + 1, zero_row := p.1,
                      zero_col := p.2 } := by
        simp [scanStep, h0]
      obtain ⟨-, -, -, h4⟩ :=
        scanUnit_foldl psize g rest (scanStep psize g st p)
      obtain ⟨h4a, h4b⟩ := h4 hrest
      rw [List.foldl_cons, hstep]
      rw [hstep] at h4a h4b
      exact ⟨by simpa using h4a, by simpa using h4b⟩
    · have hz : zerosOf g (p :: rest) = zerosOf g rest := by
        simp [zerosOf, List.filter_cons, h0]
      rw [hz] at h
      have hkeep : (scanStep psize g st p).zero_row = st.zero_row ∧
          (scanStep psize g st p).zero_col = st.zero_col := by
        by_cases hr : 0 < g p.1 p.2 ∧ g p.1 p.2 ≤ (psize : Int) <;>
          simp [scanStep, h0, hr]
      rw [List.foldl_cons]
      exact ih (scanStep psize g st p) q h

theorem scanUnit_def (psize : Nat) (g : Grid) (ps : List (Nat × Nat)) :
    scanUnit psize g ps = ps.foldl (scanStep psize g) ⟨0, 0, 0, 0, []⟩ :=
  rfl

theorem solveUnit_eq (psize : Nat) (g : Grid) (ps : List (Nat × Nat)) :
    ((zerosOf g ps).length ≠ 1 → solveUnit psize g ps = (g, 0)) ∧
    (∀ q, zerosOf g ps = [q] →
      (0 < expectedSum psize - (inRangeCells psize g ps).sum ∧
          expectedSum psize - (inRangeCells psize g ps).sum ≤ (psize : Int) ∧
          expectedSum psize - (inRangeCells psize g ps).sum
            ∉ inRangeCells psize g ps →
        solveUnit psize g ps =
          (gridSet g q.1 q.2
            (expectedSum psize - (inRangeCells psize g ps).sum), 1)) ∧
      (¬(0 < expectedSum psize - (inRangeCells psize g ps).sum ∧
          expectedSum psize - (inRangeCells psize g ps).sum ≤ (psize : Int) ∧
          expectedSum psize - (inRangeCells psize g ps).sum
            ∉ inRangeCells psize g ps) →
        solveUnit psize g ps = (g, 0))) := by
  obtain ⟨h1, h2, h3, -⟩ := scanUnit_foldl psize g ps ⟨0, 0, 0, 0, []⟩
  have hseen : ∀ x : Int, x ∈ (scanUnit psize g ps).seen ↔
      x ∈ inRangeCells psize g ps := by
    intro x
    rw [scanUnit_def, h3]
    simp
  constructor
  · intro hne
    simp only [solveUnit]
    rw [if_neg (by rw [scanUnit_def, h1]; simpa using hne)]
  · intro q hq
    have hcount : (scanUnit psize g ps).zero_count = 1 := by
      rw [scanUnit_def, h1, hq]
      simp
    have hsum : (scanUnit psize g ps).sum = (inRangeCells psize g ps).sum := by
      rw [scanUnit_def, h2]
      simp
    obtain ⟨hrow, hcol⟩ :=
      scanUnit_single_zero psize g ps ⟨0, 0, 0, 0, []⟩ q hq
    constructor
    · intro hcond
      simp only [solveUnit]
      rw [if_pos hcount, if_pos (by
        rw [hsum]
        exact ⟨hcond.1, hcond.2.1, fun hm => hcond.2.2 ((hseen _).1 hm)⟩)]
      rw [hsum, scanUnit_def, hrow, hcol]
    · intro hcond
      simp only [solveUnit]
      rw [if_pos hcount, if_neg (by
        rw [hsum]
        intro hc
        exact hcond ⟨hc.1, hc.2.1, fun hm => hc.2.2 ((hseen _).2 hm)⟩)]

theorem mem_zerosOf {g : Grid} {ps : List (Nat × Nat)} {q : Nat × Nat} :
    q ∈ zerosOf g ps ↔ q ∈ ps ∧ g q.1 q.2 = 0 := by
  simp [zerosOf]

theorem solveUnit_cases (psize : Nat) (g : Grid) (ps : List (Nat × Nat)) :
    solveUnit psize g ps = (g, 0) ∨
      ∃ q v, q ∈ ps ∧ g q.1 q.2 = 0 ∧ 0 < v ∧ v ≤ (psize : Int) ∧
        solveUnit psize g ps = (gridSet g q.1 q.2 v, 1) := by
  obtain ⟨hA, hB⟩ := solveUnit_eq psize g ps
  by_cases hlen : (zerosOf g ps).length = 1
  · obtain ⟨q, hq⟩ := List.length_eq_one.1 hlen
    have hmem : q ∈ ps ∧ g q.1 q.2 = 0 :=
      mem_zerosOf.1 (by rw [hq]; exact List.mem_singleton_self q)
    obtain ⟨hc1, hc2⟩ := hB q hq
    by_cases hcond : 0 < expectedSum psize - (inRangeCells psize g ps).sum ∧
        expectedSum psize - (inRangeCells psize g ps).sum ≤ (psize : Int) ∧
        expectedSum psize - (inRangeCells psize g ps).sum
          ∉ inRangeCells psize g ps
    · exact Or.inr ⟨q, _, hmem.1, hmem.2, hcond.1, hcond.2.1, hc1 hcond⟩
    · exact Or.inl (hc2 hcond)
  · exact Or.inl (hA hlen)

theorem solveUnit_no_zero {psize : Nat} {g : Grid} {ps : List (Nat × Nat)}
    (h : zerosOf g ps = []) : solveUnit psize g ps = (g, 0) :=
  (solveUnit_eq psize g ps).1 (by rw [h]; simp)

theorem numZeros_gridSet {psize : Nat} {g : Grid} {r c : Nat} {v : Int}
    (hr1 : 1 ≤ r) (hr2 : r ≤ psize) (hc1 : 1 ≤ c) (hc2 : c ≤ psize)
    (h0 : g r c = 0) (hv : v ≠ 0) :
    numZeros psize (gridSet g r c v) + 1 = numZeros psize g := by
  have hmem : (r, c) ∈ (Finset.Icc 1 psize ×ˢ Finset.Icc 1 psize).filter
      (fun p => g p.1 p.2 = 0) := by
    simp only [Finset.mem_filter, Finset.mem_product, Finset.mem_Icc]
    exact ⟨⟨⟨hr1, hr2⟩, hc1, hc2⟩, h0⟩
  have hset : (Finset.Icc 1 psize ×ˢ Finset.Icc 1 psize).filter
      (fun p => gridSet g r c v p.1 p.2 = 0)
      = ((Finset.Icc 1 psize ×ˢ Finset.Icc 1 psize).filter
        (fun p => g p.1 p.2 = 0)).erase (r, c) := by
    ext p
    simp only [Finset.mem_filter, Finset.mem_erase, gridSet]
    constructor
    · rintro ⟨hp, hz⟩
      by_cases hpq : p.1 = r ∧ p.2 = c
      · rw [if_pos hpq] at hz
        exact absurd hz hv
      · rw [if_neg hpq] at hz
        refine ⟨fun hpe => hpq ⟨by rw [hpe], by rw [hpe]⟩, hp, hz⟩
    · rintro ⟨hne, hp, hz⟩
      refine ⟨hp, ?_⟩
      rw [if_neg ?_]
      · exact hz
      · rintro ⟨h1, h2⟩
        exact hne (Prod.ext h1 h2)
  rw [numZeros, numZeros, hset, Finset.card_erase_of_mem hmem]
  have hpos : 0 < ((Finset.Icc 1 psize ×ˢ Finset.Icc 1 psize).filter
      (fun p => g p.1 p.2 = 0)).card := Finset.card_pos.2 ⟨(r, c), hmem⟩
  omega

theorem rowPositions_range {row psize : Nat} (h1 : 1 ≤ row)
    (h2 : row ≤ psize) {q : Nat × Nat} (hq : q ∈ rowPositions row psize) :
    1 ≤ q.1 ∧ q.1 ≤ psize ∧ 1 ≤ q.2 ∧ q.2 ≤ psize := by
  simp only [rowPositions, List.mem_map, List.mem_range] at hq
  obtain ⟨k, hk, rfl⟩ := hq
  exact ⟨h1, h2, by omega, by omega⟩

theorem colPositions_range {col psize : Nat} (h1 : 1 ≤ col)
    (h2 : col ≤ psize) {q : Nat × Nat} (hq : q ∈ colPositions col psize) :
    1 ≤ q.1 ∧ q.1 ≤ psize ∧ 1 ≤ q.2 ∧ q.2 ≤ psize := by
  simp only [colPositions, List.mem_map, List.mem_range] at hq
  obtain ⟨k, hk, rfl⟩ := hq
  exact ⟨by omega, by omega, h1, h2⟩

theorem subgridPositions_range {idx psize : Nat}
    (hsq : intSqrt psize * intSqrt psize = psize) (hidx : idx < psize)
    {q : Nat × Nat}
    (hq : q ∈ subgridPositions (subgridStartRow idx psize)
        (subgridStartCol idx psize) psize) :
    1 ≤ q.1 ∧ q.1 ≤ psize ∧ 1 ≤ q.2 ∧ q.2 ≤ psize := by
  simp only [subgridPositions, List.mem_flatten, List.mem_map,
    List.mem_range] at hq
  obtain ⟨l, ⟨r, hr, rfl⟩, hql⟩ := hq
  obtain ⟨c, hc, rfl⟩ := by
    simpa only [List.mem_map, List.mem_range] using hql
  have hs0 : 0 < intSqrt psize := by
    rcases Nat.eq_zero_or_pos (intSqrt psize) with h | h
    · rw [h] at hsq
      omega
    · exact h
  have hdiv : idx / intSqrt psize + 1 ≤ intSqrt psize := by
    have : idx / intSqrt psize < intSqrt psize :=
      Nat.div_lt_of_lt_mul (by omega)
    omega
  have hmul : (idx / intSqrt psize + 1) * intSqrt psize
      ≤ intSqrt psize * intSqrt psize :=
    Nat.mul_le_mul_right _ hdiv
  have hmod : idx % intSqrt psize + 1 ≤ intSqrt psize :=
    Nat.mod_lt _ hs0
  have hmul2 : (idx % intSqrt psize + 1) * intSqrt psize
      ≤ intSqrt psize * intSqrt psize :=
    Nat.mul_le_mul_right _ hmod
  simp only [subgridStartRow, subgridStartCol]
  rw [Nat.add_mul, one_mul] at hmul hmul2
  refine ⟨by omega, by omega, by omega, by omega⟩

theorem framePreserved_refl (psize : Nat) (g : Grid) :
    FramePreserved psize g g :=
  fun _ _ h => absurd rfl h

theorem framePreserved_trans {psize : Nat} {g1 g2 g3 : Grid}
    (h12 : FramePreserved psize g1 g2) (h23 : FramePreserved psize g2 g3) :
    FramePreserved psize g1 g3 := by
  intro i j hne
  by_cases h2 : g3 i j = g2 i j
  · rw [h2] at hne ⊢
    exact h12 i j hne
  · obtain ⟨a1, a2, a3, a4, a5, a6, a7⟩ := h23 i j h2
    refine ⟨a1, a2, a3, a4, ?_, a6, a7⟩
    by_cases h1 : g2 i j = g1 i j
    · rw [← h1]
      exact a5
    · exact (h12 i j h1).2.2.2.2.1
  
theorem framePreserved_gridSet {psize : Nat} {g : Grid} {r c : Nat} {v : Int}
    (hr1 : 1 ≤ r) (hr2 : r ≤ psize) (hc1 : 1 ≤ c) (hc2 : c ≤ psize)
    (h0 : g r c = 0) (hv1 : 0 < v) (hv2 : v ≤ (psize : Int)) :
    FramePreserved psize g (gridSet g r c v) := by
  intro i j hne
  rw [gridSet] at hne ⊢
  by_cases hij : i = r ∧ j = c
  · rw [if_pos hij]
    obtain ⟨rfl, rfl⟩ := hij
    exact ⟨hr1, hr2, hc1, hc2, h0, by omega, hv2⟩
  · rw [if_neg hij] at hne
    exact absurd rfl hne

theorem workerFold_spec (psize : Nat) (f : Nat → Grid → Grid × Nat)
    (step : Grid × Nat → Nat → Grid × Nat)
    (hstep : ∀ gc k, step gc k = ((f k gc.1).1, gc.2 + (f k gc.1).2))
    (l : List Nat)
    (hf : ∀ k ∈ l, ∀ g : Grid, f k g = (g, 0) ∨
      ∃ r c v, 1 ≤ r ∧ r ≤ psize ∧ 1 ≤ c ∧ c ≤ psize ∧ g r c = 0 ∧
        0 < v ∧ v ≤ (psize : Int) ∧ f k g = (gridSet g r c v, 1)) :
    ∀ (g0 : Grid) (c0 : Nat),
      numZeros psize (l.foldl step (g0, c0)).1 + (l.foldl step (g0, c0)).2
          = numZeros psize g0 + c0 ∧
      c0 ≤ (l.foldl step (g0, c0)).2 ∧
      ((l.foldl step (g0, c0)).2 = c0 → (l.foldl step (g0, c0)).1 = g0) ∧
      FramePreserved psize g0 (l.foldl step (g0, c0)).1 := by
  induction l with
  | nil =>
    intro g0 c0
    exact ⟨rfl, Nat.le_refl c0, fun _ => rfl, framePreserved_refl psize g0⟩
  | cons k rest ih =>
    intro g0 c0
    have hmem : k ∈ k :: rest := List.mem_cons_self k rest
    rcases hf k hmem g0 with hid | ⟨r, c, v, hr1, hr2, hc1, hc2, h0, hv1,
        hv2, hfill⟩
    · have : step (g0, c0) k = (g0, c0) := by
        rw [hstep, hid]
        simp
      rw [List.foldl_cons, this]
      exact ih (fun k' hk' => hf k' (List.mem_cons_of_mem k hk')) g0 c0
    · have hstep1 : step (g0, c0) k = (gridSet g0 r c v, c0 + 1) := by
        rw [hstep, hfill]
      rw [List.foldl_cons, hstep1]
      obtain ⟨ih1, ih2, ih3, ih4⟩ :=
        ih (fun k' hk' => hf k' (List.mem_cons_of_mem k hk'))
          (gridSet g0 r c v) (c0 + 1)
      have hnz : numZeros psize (gridSet g0 r c v) + 1 = numZeros psize g0 :=
        numZeros_gridSet hr1 hr2 hc1 hc2 h0 (by omega)
      refine ⟨by omega, by omega, ?_, ?_⟩
      · intro habs
        omega
      · exact framePreserved_trans
          (framePreserved_gridSet hr1 hr2 hc1 hc2 h0 hv1 hv2) ih4

theorem solve_rows_worker_spec (psize : Nat) (g : Grid) :
    numZeros psize (solve_rows_worker psize g).1
        + (solve_rows_worker psize g).2 = numZeros psize g ∧
    ((solve_rows_worker psize g).2 = 0 → (solve_rows_worker psize g).1 = g) ∧
    FramePreserved psize g (solve_rows_worker psize g).1 := by
  have hf : ∀ k ∈ List.range psize, ∀ g' : Grid,
      solve_row (k + 1) psize g' = (g', 0) ∨
        ∃ r c v, 1 ≤ r ∧ r ≤ psize ∧ 1 ≤ c ∧ c ≤ psize ∧ g' r c = 0 ∧
          0 < v ∧ v ≤ (psize : Int) ∧
          solve_row (k + 1) psize g' = (gridSet g' r c v, 1) := by
    intro k hk g'
    have hkp := List.mem_range.1 hk
    rcases solveUnit_cases psize g' (rowPositions (k + 1) psize) with
      h | ⟨q, v, hq, h0, hv1, hv2, hfill⟩
    · exact Or.inl h
    · obtain ⟨a1, a2, a3, a4⟩ :=
        rowPositions_range (by omega) (by omega) hq
      exact Or.inr ⟨q.1, q.2, v, a1, a2, a3, a4, h0, hv1, hv2, hfill⟩
  obtain ⟨h1, h2, h3, h4⟩ := workerFold_spec psize
    (fun k g' => solve_row (k + 1) psize g')
    (fun gc k => ((solve_row (k + 1) psize gc.1).1,
      gc.2 + (solve_row (k + 1) psize gc.1).2))
    (fun gc k => rfl) (List.range psize) hf g 0
  exact ⟨h1, h3, h4⟩

theorem solve_cols_worker_spec (psize : Nat) (g : Grid) :
    numZeros psize (solve_cols_worker psize g).1
        + (solve_cols_worker psize g).2 = numZeros psize g ∧
    ((solve_cols_worker psize g).2 = 0 → (solve_cols_worker psize g).1 = g) ∧
    FramePreserved psize g (solve_cols_worker psize g).1 := by
  have hf : ∀ k ∈ List.range psize, ∀ g' : Grid,
      solve_col (k + 1) psize g' = (g', 0) ∨
        ∃ r c v, 1 ≤ r ∧ r ≤ psize ∧ 1 ≤ c ∧ c ≤ psize ∧ g' r c = 0 ∧
          0 < v ∧ v ≤ (psize : Int) ∧
          solve_col (k + 1) psize g' = (gridSet g' r c v, 1) := by
    intro k hk g'
    have hkp := List.mem_range.1 hk
    rcases solveUnit_cases psize g' (colPositions (k + 1) psize) with
      h | ⟨q, v, hq, h0, hv1, hv2, hfill⟩
    · exact Or.inl h
    · obtain ⟨a1, a2, a3, a4⟩ :=
        colPositions_range (by omega) (by omega) hq
      exact Or.inr ⟨q.1, q.2, v, a1, a2, a3, a4, h0, hv1, hv2, hfill⟩
  obtain ⟨h1, h2, h3, h4⟩ := workerFold_spec psize
    (fun k g' => solve_col (k + 1) psize g')
    (fun gc k => ((solve_col (k + 1) psize gc.1).1,
      gc.2 + (solve_col (k + 1) psize gc.1).2))
    (fun gc k => rfl) (List.range psize) hf g 0
  exact ⟨h1, h3, h4⟩

theorem solve_subgrids_workers_spec (psize : Nat) (g : Grid)
    (hsq : intSqrt psize * intSqrt psize = psize) :
    numZeros psize (solve_subgrids_workers psize g).1
        + (solve_subgrids_workers psize g).2 = numZeros psize g ∧
    ((solve_subgrids_workers psize g).2 = 0 →
      (solve_subgrids_workers psize g).1 = g) ∧
    FramePreserved psize g (solve_subgrids_workers psize g).1 := by
  have hf : ∀ k ∈ List.range psize, ∀ g' : Grid,
      solve_subgrid (subgridStartRow k psize) (subgridStartCol k psize)
          psize g' = (g', 0) ∨
        ∃ r c v, 1 ≤ r ∧ r ≤ psize ∧ 1 ≤ c ∧ c ≤ psize ∧ g' r c = 0 ∧
          0 < v ∧ v ≤ (psize : Int) ∧
          solve_subgrid (subgridStartRow k psize) (subgridStartCol k psize)
            psize g' = (gridSet g' r c v, 1) := by
    intro k hk g'
    have hkp := List.mem_range.1 hk
    rcases solveUnit_cases psize g'
        (subgridPositions (subgridStartRow k psize)
          (subgridStartCol k psize) psize) with
      h | ⟨q, v, hq, h0, hv1, hv2, hfill⟩
    · exact Or.inl h
    · obtain ⟨a1, a2, a3, a4⟩ := subgridPositions_range hsq hkp hq
      exact Or.inr ⟨q.1, q.2, v, a1, a2, a3, a4, h0, hv1, hv2, hfill⟩
  obtain ⟨h1, h2, h3, h4⟩ := workerFold_spec psize
    (fun k g' => solve_subgrid (subgridStartRow k psize)
      (subgridStartCol k psize) psize g')
    (fun gc k => ((solve_subgrid (subgridStartRow k psize)
        (subgridStartCol k psize) psize gc.1).1,
      gc.2 + (solve_subgrid (subgridStartRow k psize)
        (subgridStartCol k psize) psize gc.1).2))
    (fun gc k => rfl) (List.range psize) hf g 0
  exact ⟨h1, h3, h4⟩

theorem solvePass_spec (psize : Nat) (g : Grid)
    (hsq : intSqrt psize * intSqrt psize = psize) :
    numZeros psize (solvePass psize g).1 + (solvePass psize g).2
        = numZeros psize g ∧
    ((solvePass psize g).2 = 0 → (solvePass psize g).1 = g) ∧
    FramePreserved psize g (solvePass psize g).1 := by
  obtain ⟨r1a, r1b, r1c⟩ := solve_rows_worker_spec psize g
  obtain ⟨r2a, r2b, r2c⟩ :=
    solve_cols_worker_spec psize (solve_rows_worker psize g).1
  obtain ⟨r3a, r3b, r3c⟩ :=
    solve_subgrids_workers_spec psize
      (solve_cols_worker psize (solve_rows_worker psize g).1).1 hsq
  have h1 : (solvePass psize g).1 =
      (solve_subgrids_workers psize
        (solve_cols_worker psize (solve_rows_worker psize g).1).1).1 := rfl
  have h2 : (solvePass psize g).2 =
      (solve_rows_worker psize g).2
        + (solve_cols_worker psize (solve_rows_worker psize g).1).2
        + (solve_subgrids_workers psize
            (solve_cols_worker psize (solve_rows_worker psize g).1).1).2 :=
    rfl
  rw [h1, h2]
  refine ⟨by omega, ?_,
    framePreserved_trans r1c (framePreserved_trans r2c r3c)⟩
  intro hz
  have hz3 : (solve_subgrids_workers psize
      (solve_cols_worker psize (solve_rows_worker psize g).1).1).2 = 0 := by
    omega
  have hz2 : (solve_cols_worker psize (solve_rows_worker psize g).1).2 = 0 :=
    by omega
  have hz1 : (solve_rows_worker psize g).2 = 0 := by omega
  rw [r3b hz3, r2b hz2, r1b hz1]

theorem solveLoopFuel_succ (psize fuel : Nat) (g : Grid) :
    solveLoopFuel psize (fuel + 1) g =
      if (solvePass psize g).2 > 0 then
        solveLoopFuel psize fuel (solvePass psize g).1
      else (solvePass psize g).1 := rfl

theorem solveLoopFuel_irrel (psize : Nat)
    (hsq : intSqrt psize * intSqrt psize = psize) :
    ∀ (fuel1 : Nat) (g : Grid) (fuel2 : Nat),
      numZeros psize g < fuel1 → numZeros psize g < fuel2 →
      solveLoopFuel psize fuel1 g = solveLoopFuel psize fuel2 g := by
  intro fuel1
  induction fuel1 with
  | zero =>
    intro g fuel2 h1 h2
    omega
  | succ n ih =>
    intro g fuel2 h1 h2
    obtain ⟨m, rfl⟩ : ∃ m, fuel2 = m + 1 := ⟨fuel2 - 1, by omega⟩
    rw [solveLoopFuel_succ, solveLoopFuel_succ]
    obtain ⟨pa, pb, -⟩ := solvePass_spec psize g hsq
    by_cases hc : (solvePass psize g).2 > 0
    · rw [if_pos hc, if_pos hc]
      exact ih (solvePass psize g).1 m (by omega) (by omega)
    · rw [if_neg hc, if_neg hc]

theorem solveLoopFuel_eq_solveLoop (psize : Nat)
    (hsq : intSqrt psize * intSqrt psize = psize) (fuel : Nat) (g : Grid)
    (h : numZeros psize g < fuel) :
    solveLoopFuel psize fuel g = solveLoop psize g :=
  solveLoopFuel_irrel psize hsq fuel g (numZeros psize g + 1) h (by omega)

theorem solvePass_solveLoopFuel (psize : Nat)
    (hsq : intSqrt psize * intSqrt psize = psize) :
    ∀ (fuel : Nat) (g : Grid), numZeros psize g < fuel →
      solvePass psize (solveLoopFuel psize fuel g)
        = (solveLoopFuel psize fuel g, 0) := by
  intro fuel
  induction fuel with
  | zero =>
    intro g h
    omega
  | succ n ih =>
    intro g h
    rw [solveLoopFuel_succ]
    obtain ⟨pa, pb, -⟩ := solvePass_spec psize g hsq
    by_cases hc : (solvePass psize g).2 > 0
    · rw [if_pos hc]
      exact ih (solvePass psize g).1 (by omega)
    · rw [if_neg hc]
      have h0 : (solvePass psize g).2 = 0 := by omega
      have h1 : (solvePass psize g).1 = g := pb h0
      rw [h1]
      exact Prod.ext h1 h0

theorem solvePass_solveLoop (psize : Nat)
    (hsq : intSqrt psize * intSqrt psize = psize) (g : Grid) :
    solvePass psize (solveLoop psize g) = (solveLoop psize g, 0) :=
  solvePass_solveLoopFuel psize hsq (numZeros psize g + 1) g (by omega)

theorem solveLoop_frame (psize : Nat)
    (hsq : intSqrt psize * intSqrt psize = psize) :
    ∀ (fuel : Nat) (g : Grid),
      FramePreserved psize g (solveLoopFuel psize fuel g) := by
  intro fuel
  induction fuel with
  | zero =>
    intro g
    exact framePreserved_refl psize g
  | succ n ih =>
    intro g
    rw [solveLoopFuel_succ]
    obtain ⟨-, -, pc⟩ := solvePass_spec psize g hsq
    by_cases hc : (solvePass psize g).2 > 0
    · rw [if_pos hc]
      exact framePreserved_trans pc (ih (solvePass psize g).1)
    · rw [if_neg hc]
      exact pc

theorem numZeros_le (psize : Nat) (g : Grid) :
    numZeros psize g ≤ psize * psize := by
  rw [numZeros]
  calc ((Finset.Icc 1 psize ×ˢ Finset.Icc 1 psize).filter
      (fun p => g p.1 p.2 = 0)).card
      ≤ (Finset.Icc 1 psize ×ˢ Finset.Icc 1 psize).card :=
        Finset.card_filter_le _ _
    _ = psize * psize := by
        rw [Finset.card_product, Nat.card_Icc]
        simp

theorem gridComplete_iff (psize : Nat) (g : Grid) :
    gridComplete psize g = true ↔ numZeros psize g = 0 := by
  rw [gridComplete, numZeros]
  simp only [List.all_eq_true, List.mem_range, Bool.not_eq_true',
    beq_eq_false_iff_ne, ne_eq, Finset.card_eq_zero,
    Finset.filter_eq_empty_iff, Finset.mem_product, Finset.mem_Icc]
  constructor
  · intro h p hp
    have hp1 : 1 ≤ p.1 ∧ p.1 ≤ psize := hp.1
    have hp2 : 1 ≤ p.2 ∧ p.2 ≤ psize := hp.2
    have := h (p.1 - 1) (by omega) (p.2 - 1) (by omega)
    rw [Nat.sub_add_cancel hp1.1, Nat.sub_add_cancel hp2.1] at this
    exact this
  · intro h i hi j hj
    exact @h (i + 1, j + 1) ⟨⟨by omega, by omega⟩, by omega, by omega⟩

theorem checkPuzzle_complete_case {psize : Nat} {g : Grid}
    (h : gridComplete psize g = true) :
    checkPuzzle psize g = ⟨g, true, validateAll psize g⟩ := by
  simp only [checkPuzzle]
  rw [if_pos h]

theorem checkPuzzle_incomplete_case {psize : Nat} {g : Grid}
    (h : gridComplete psize g = false) :
    checkPuzzle psize g =
      ⟨solveLoop psize g, gridComplete psize (solveLoop psize g),
        validateAll psize (solveLoop psize g)⟩ := by
  simp only [checkPuzzle]
  rw [if_neg (by rw [h]; simp)]

theorem is_row_valid_false_of_zero {psize : Nat} {g : Grid} {i j : Nat}
    (_hi : i < psize) (hj : j < psize) (h0 : g (i + 1) (j + 1) = 0) :
    is_row_valid (i + 1) psize g = false := by
  rw [Bool.eq_false_iff]
  intro htrue
  obtain ⟨hr, -, -⟩ := (scanValid_eq_true _ []).1 htrue
  have hmem : (0 : Int) ∈ unitCells g (rowPositions (i + 1) psize) := by
    rw [unitCells]
    refine List.mem_map.2 ⟨(i + 1, j + 1), ?_, h0⟩
    rw [rowPositions]
    exact List.mem_map.2 ⟨j, List.mem_range.2 hj, rfl⟩
  have := hr 0 hmem
  omega

theorem validateAll_false_of_outcome {psize : Nat} {g : Grid} {i : Nat}
    (hi : i < psize + 2) (h : validationOutcome psize g i = false) :
    validateAll psize g = false := by
  rw [validateAll, List.all_eq_false]
  exact ⟨i, List.mem_range.2 hi, by rw [h]; simp⟩

theorem validateAll_false_of_zero {psize : Nat} {g : Grid} {i j : Nat}
    (hi : i < psize) (hj : j < psize) (h0 : g (i + 1) (j + 1) = 0) :
    validateAll psize g = false := by
  refine @validateAll_false_of_outcome psize g 0 (by omega) ?_
  show validationOutcome psize g 0 = false
  rw [validationOutcome, if_pos rfl, check_rows, List.all_eq_false]
  exact ⟨i, List.mem_range.2 hi,
    by rw [is_row_valid_false_of_zero hi hj h0]; simp⟩

theorem validateAll_eq_true_iff (psize : Nat) (g : Grid) :
    validateAll psize g = true ↔
      ∀ i, i < psize + 2 → validationOutcome psize g i = true := by
  rw [validateAll, List.all_eq_true]
  constructor
  · intro h i hi
    exact h i (List.mem_range.2 hi)
  · intro h i hi
    exact h i (List.mem_range.1 hi)

theorem workerFold_noop {g0 : Grid} {c0 : Nat}
    (f : Nat → Grid → Grid × Nat) (step : Grid × Nat → Nat → Grid × Nat)
    (hstep : ∀ gc k, step gc k = ((f k gc.1).1, gc.2 + (f k gc.1).2))
    (l : List Nat) (hf : ∀ k ∈ l, f k g0 = (g0, 0)) :
    l.foldl step (g0, c0) = (g0, c0) := by
  induction l with
  | nil => rfl
  | cons k rest ih =>
    have hk : step (g0, c0) k = (g0, c0) := by
      rw [hstep, hf k (List.mem_cons_self k rest)]
      simp
    rw [List.foldl_cons, hk]
    exact ih (fun k' hk' => hf k' (List.mem_cons_of_mem k hk'))

theorem exists_zero_of_incomplete {psize : Nat} {g : Grid}
    (h : gridComplete psize g = false) :
    ∃ i j, i < psize ∧ j < psize ∧ g (i + 1) (j + 1) = 0 := by
  by_contra hc
  push_neg at hc
  have : gridComplete psize g = true := by
    rw [gridComplete, List.all_eq_true]
    intro i hi
    rw [List.all_eq_true]
    intro j hj
    have hne := hc i j (List.mem_range.1 hi) (List.mem_range.1 hj)
    simpa using hne
  rw [this] at h
  cases h

theorem solveUnit_frame {psize : Nat} {g : Grid} {ps : List (Nat × Nat)}
    (hps : ∀ q ∈ ps, 1 ≤ q.1 ∧ q.1 ≤ psize ∧ 1 ≤ q.2 ∧ q.2 ≤ psize) :
    FramePreserved psize g (solveUnit psize g ps).1 := by
  rcases solveUnit_cases psize g ps with h | ⟨q, v, hq, h0, hv1, hv2, hfill⟩
  · rw [h]
    exact framePreserved_refl psize g
  · rw [hfill]
    obtain ⟨a1, a2, a3, a4⟩ := hps q hq
    exact framePreserved_gridSet a1 a2 a3 a4 h0 hv1 hv2

/-- C2: for every unit shape (row, column, subgrid), the validator accepts
exactly the units whose cells are a permutation of 1..N, and the shared
validation scan rejects any cell list with an out-of-range or repeated
value. -/
theorem claim_C2_unit_validator (psize : Nat) (g : Grid)
    (hsq : intSqrt psize * intSqrt psize = psize) :
    (∀ row, is_row_valid row psize g = true ↔
      (unitCells g (rowPositions row psize)).Perm (targetList psize)) ∧
    (∀ col, is_col_valid col psize g = true ↔
      (unitCells g (colPositions col psize)).Perm (targetList psize)) ∧
    (∀ sr sc, is_subgrid_valid sr sc psize g = true ↔
      (unitCells g (subgridPositions sr sc psize)).Perm (targetList psize)) ∧
    (∀ cells : List Int,
      ((∃ x ∈ cells, x < 1 ∨ (psize : Int) < x) ∨ ¬cells.Nodup) →
        scanValid psize cells [] = false) := by
  refine ⟨fun row => is_row_valid_iff, fun col => is_col_valid_iff,
    fun sr sc => is_subgrid_valid_iff hsq, ?_⟩
  intro cells h
  rw [Bool.eq_false_iff]
  intro htrue
  obtain ⟨hr, hn, -⟩ := (scanValid_eq_true cells []).1 htrue
  rcases h with ⟨x, hx, hlt⟩ | hnd
  · have := hr x hx
    rcases hlt with h' | h' <;> omega
  · exact hnd hn

/-- Witness for C2 at the valid completed 4×4 grid of the spec. -/
theorem claim_C2_unit_validator_witness :
    (intSqrt 4 * intSqrt 4 = 4) ∧
      (is_row_valid 1 4 validGrid4 = true ↔
        (unitCells validGrid4 (rowPositions 1 4)).Perm (targetList 4)) :=
  ⟨by decide, (claim_C2_unit_validator 4 validGrid4 (by decide)).1 1⟩

/-- C3: the unit solver commits a fill exactly when the unit has a single
zero position and the missing value `N(N+1)/2 - sum` is in range and
unseen; it writes that value at the zero position and reports 1, and
reports 0 leaving the grid unchanged otherwise; rows, columns and
subgrids all run this same body. -/
theorem claim_C3_unit_solver (psize : Nat) (g : Grid)
    (ps : List (Nat × Nat)) :
    (∀ row, solve_row row psize g
        = solveUnit psize g (rowPositions row psize)) ∧
    (∀ col, solve_col col psize g
        = solveUnit psize g (colPositions col psize)) ∧
    (∀ sr sc, solve_subgrid sr sc psize g
        = solveUnit psize g (subgridPositions sr sc psize)) ∧
    ((zerosOf g ps).length ≠ 1 → solveUnit psize g ps = (g, 0)) ∧
    (∀ q, zerosOf g ps = [q] →
      (0 < expectedSum psize - (inRangeCells psize g ps).sum ∧
          expectedSum psize - (inRangeCells psize g ps).sum ≤ (psize : Int) ∧
          expectedSum psize - (inRangeCells psize g ps).sum
            ∉ inRangeCells psize g ps →
        solveUnit psize g ps =
          (gridSet g q.1 q.2
            (expectedSum psize - (inRangeCells psize g ps).sum), 1)) ∧
      (¬(0 < expectedSum psize - (inRangeCells psize g ps).sum ∧
          expectedSum psize - (inRangeCells psize g ps).sum ≤ (psize : Int) ∧
          expectedSum psize - (inRangeCells psize g ps).sum
            ∉ inRangeCells psize g ps) →
        solveUnit psize g ps = (g, 0))) :=
  ⟨fun _ => rfl, fun _ => rfl, fun _ _ => rfl,
    (solveUnit_eq psize g ps).1, (solveUnit_eq psize g ps).2⟩

/-- Witness for C3 at the 4×4 row `(0, 1, 2, 4)`: the single zero at
column 1 is filled with the missing value 3. -/
theorem claim_C3_unit_solver_witness :
    (zerosOf nearRowGrid4 (rowPositions 1 4) = [(1, 1)]) ∧
    expectedSum 4 - (inRangeCells 4 nearRowGrid4 (rowPositions 1 4)).sum = 3 ∧
    solveUnit 4 nearRowGrid4 (rowPositions 1 4) =
      (gridSet nearRowGrid4 1 1
        (expectedSum 4 - (inRangeCells 4 nearRowGrid4
          (rowPositions 1 4)).sum), 1) :=
  ⟨by decide, by decide,
    ((claim_C3_unit_solver 4 nearRowGrid4
      (rowPositions 1 4)).2.2.2.2 (1, 1) (by decide)).1 (by decide)⟩

/-- C10: on the 4-cell row `(0, 2, 2, 2)` (duplicates present), the commit
guard does not fire: the in-range sum is 6, the computed missing value is
4, it is in range and unseen, so the solver writes 4 into the zero cell
and returns 1. -/
theorem claim_C10_dup_row_filled :
    dupRowGrid4 1 1 = 0 ∧ dupRowGrid4 1 2 = 2 ∧ dupRowGrid4 1 3 = 2 ∧
    dupRowGrid4 1 4 = 2 ∧
    (inRangeCells 4 dupRowGrid4 (rowPositions 1 4)).sum = 6 ∧
    expectedSum 4 - (inRangeCells 4 dupRowGrid4 (rowPositions 1 4)).sum = 4 ∧
    (solve_row 1 4 dupRowGrid4).2 = 1 ∧
    (solve_row 1 4 dupRowGrid4).1 1 1 = 4 := by
  refine ⟨rfl, rfl, rfl, rfl, by decide, by decide, by decide, by decide⟩

/-- C1: `checkPuzzle` computes `valid` as the AND of the `psize + 2`
validation-task outcomes on the final grid, in every case; any remaining
zero cell forces `valid = false`, and any single failed task outcome
(e.g. a filled unit with a duplicate) forces `valid = false` even when
other units are incomplete. -/
theorem claim_C1_validation_always_runs (psize : Nat) (g : Grid) :
    ((checkPuzzle psize g).valid = true ↔
      ∀ i, i < psize + 2 →
        validationOutcome psize (checkPuzzle psize g).grid i = true) ∧
    (∀ i j, i < psize → j < psize →
      (checkPuzzle psize g).grid (i + 1) (j + 1) = 0 →
      (checkPuzzle psize g).valid = false) ∧
    (∀ i, i < psize + 2 →
      validationOutcome psize (checkPuzzle psize g).grid i = false →
      (checkPuzzle psize g).valid = false) := by
  have hv : (checkPuzzle psize g).valid
      = validateAll psize (checkPuzzle psize g).grid := by
    by_cases h : gridComplete psize g = true
    · rw [checkPuzzle_complete_case h]
    · rw [checkPuzzle_incomplete_case (Bool.eq_false_iff.2 h)]
  rw [hv]
  exact ⟨validateAll_eq_true_iff _ _,
    fun i j hi hj h0 => validateAll_false_of_zero hi hj h0,
    fun i hi hf => validateAll_false_of_outcome hi hf⟩

/-- Witness for C1 at the all-empty 4×4 grid: the grid cannot be solved,
cell (1,1) stays zero, and `valid` is false. -/
theorem claim_C1_validation_always_runs_witness :
    ((0 : Nat) < 4 ∧ (checkPuzzle 4 emptyGrid4).grid 1 1 = 0) ∧
    (checkPuzzle 4 emptyGrid4).valid = false :=
  ⟨⟨by decide, by decide⟩,
    (claim_C1_validation_always_runs 4 emptyGrid4).2.1 0 0 (by decide)
      (by decide) (by decide)⟩

/-- C5: the solve loop terminates: the zero-cell count is bounded by `N²`,
a pass with a positive shared counter strictly decreases it, a pass with
counter 0 changes nothing, `numZeros + 1` passes of fuel always suffice,
and the loop repeats exactly when the counter is positive and stops
exactly when it is 0. -/
theorem claim_C5_solve_loop_terminates (psize : Nat) (g : Grid)
    (hsq : intSqrt psize * intSqrt psize = psize) :
    numZeros psize g ≤ psize * psize ∧
    ((solvePass psize g).2 > 0 →
      numZeros psize (solvePass psize g).1 < numZeros psize g) ∧
    ((solvePass psize g).2 = 0 → (solvePass psize g).1 = g) ∧
    (∀ fuel, numZeros psize g < fuel →
      solveLoopFuel psize fuel g = solveLoop psize g) ∧
    (solveLoop psize g =
      if (solvePass psize g).2 > 0 then
        solveLoop psize (solvePass psize g).1
      else (solvePass psize g).1) := by
  obtain ⟨pa, pb, -⟩ := solvePass_spec psize g hsq
  refine ⟨numZeros_le psize g, fun hc => by omega, pb,
    fun fuel h => solveLoopFuel_eq_solveLoop psize hsq fuel g h, ?_⟩
  have hdef : solveLoop psize g
      = solveLoopFuel psize (numZeros psize g + 1) g := rfl
  rw [hdef, solveLoopFuel_succ]
  by_cases hc : (solvePass psize g).2 > 0
  · rw [if_pos hc, if_pos hc]
    exact solveLoopFuel_eq_solveLoop psize hsq _ _ (by omega)
  · rw [if_neg hc, if_neg hc]

/-- Witness for C5 at the all-empty 4×4 grid. -/
theorem claim_C5_solve_loop_terminates_witness :
    (intSqrt 4 * intSqrt 4 = 4) ∧ numZeros 4 emptyGrid4 ≤ 4 * 4 :=
  ⟨by decide, (claim_C5_solve_loop_terminates 4 emptyGrid4 (by decide)).1⟩

/-- C6: on an incomplete grid in which no unit has exactly one zero, the
first pass fills nothing and `checkPuzzle` returns the grid unchanged with
`complete = false` and `valid = false`. -/
theorem claim_C6_stuck_grid_unchanged (psize : Nat) (g : Grid)
    (hinc : gridComplete psize g = false)
    (hrow : ∀ i, i < psize →
      (zerosOf g (rowPositions (i + 1) psize)).length ≠ 1)
    (hcol : ∀ i, i < psize →
      (zerosOf g (colPositions (i + 1) psize)).length ≠ 1)
    (hsub : ∀ idx, idx < psize →
      (zerosOf g (subgridPositions (subgridStartRow idx psize)
        (subgridStartCol idx psize) psize)).length ≠ 1) :
    solvePass psize g = (g, 0) ∧
    checkPuzzle psize g = ⟨g, false, false⟩ := by
  have h0 : solve_rows_worker psize g = (g, 0) :=
    workerFold_noop (fun k g' => solve_row (k + 1) psize g')
      (fun gc k => ((solve_row (k + 1) psize gc.1).1,
        gc.2 + (solve_row (k + 1) psize gc.1).2))
      (fun gc k => rfl) (List.range psize)
      (fun k hk => (solveUnit_eq psize g (rowPositions (k + 1) psize)).1
        (hrow k (List.mem_range.1 hk)))
  have h1 : solve_cols_worker psize g = (g, 0) :=
    workerFold_noop (fun k g' => solve_col (k + 1) psize g')
      (fun gc k => ((solve_col (k + 1) psize gc.1).1,
        gc.2 + (solve_col (k + 1) psize gc.1).2))
      (fun gc k => rfl) (List.range psize)
      (fun k hk => (solveUnit_eq psize g (colPositions (k + 1) psize)).1
        (hcol k (List.mem_range.1 hk)))
  have h2 : solve_subgrids_workers psize g = (g, 0) :=
    workerFold_noop
      (fun k g' => solve_subgrid (subgridStartRow k psize)
        (subgridStartCol k psize) psize g')
      (fun gc k => ((solve_subgrid (subgridStartRow k psize)
          (subgridStartCol k psize) psize gc.1).1,
        gc.2 + (solve_subgrid (subgridStartRow k psize)
          (subgridStartCol k psize) psize gc.1).2))
      (fun gc k => rfl) (List.range psize)
      (fun k hk => (solveUnit_eq psize g (subgridPositions
          (subgridStartRow k psize) (subgridStartCol k psize) psize)).1
        (hsub k (List.mem_range.1 hk)))
  have hp : solvePass psize g = (g, 0) := by
    simp [solvePass, h0, h1, h2]
  have hloop : solveLoop psize g = g := by
    have hdef : solveLoop psize g
        = solveLoopFuel psize (numZeros psize g + 1) g := rfl
    rw [hdef, solveLoopFuel_succ, hp]
    simp
  refine ⟨hp, ?_⟩
  rw [checkPuzzle_incomplete_case hinc, hloop, hinc]
  obtain ⟨i, j, hi, hj, hz⟩ := exists_zero_of_incomplete hinc
  rw [validateAll_false_of_zero hi hj hz]

/-- Witness for C6 at a half-filled 4×4 grid with no unit holding exactly
one zero. -/
theorem claim_C6_stuck_grid_unchanged_witness :
    (gridComplete 4 stuckGrid4 = false ∧
      (∀ i, i < 4 →
        (zerosOf stuckGrid4 (rowPositions (i + 1) 4)).length ≠ 1) ∧
      (∀ i, i < 4 →
        (zerosOf stuckGrid4 (colPositions (i + 1) 4)).length ≠ 1) ∧
      (∀ idx, idx < 4 →
        (zerosOf stuckGrid4 (subgridPositions (subgridStartRow idx 4)
          (subgridStartCol idx 4) 4)).length ≠ 1)) ∧
    checkPuzzle 4 stuckGrid4 = ⟨stuckGrid4, false, false⟩ :=
  ⟨⟨by decide, by decide, by decide, by decide⟩,
    (claim_C6_stuck_grid_unchanged 4 stuckGrid4 (by decide)
      (by decide) (by decide) (by decide)).2⟩

/-- C8: on an already-complete grid that validates, `checkPuzzle` returns
(complete = true, valid = true) without touching the grid, and a second
run returns the identical result. -/
theorem claim_C8_idempotent_on_complete (psize : Nat) (g : Grid)
    (hc : gridComplete psize g = true) (hv : validateAll psize g = true) :
    checkPuzzle psize g = ⟨g, true, true⟩ ∧
    checkPuzzle psize (checkPuzzle psize g).grid = checkPuzzle psize g := by
  have h1 : checkPuzzle psize g = ⟨g, true, true⟩ := by
    rw [checkPuzzle_complete_case hc, hv]
  refine ⟨h1, ?_⟩
  rw [h1]
  exact h1

/-- Witness for C8 at the valid completed 4×4 grid. -/
theorem claim_C8_idempotent_on_complete_witness :
    (gridComplete 4 completeGrid4 = true ∧
      validateAll 4 completeGrid4 = true) ∧
    checkPuzzle 4 completeGrid4 = ⟨completeGrid4, true, true⟩ :=
  ⟨⟨by decide, by decide⟩,
    (claim_C8_idempotent_on_complete 4 completeGrid4 (by decide)
      (by decide)).1⟩

/-- C9: the state left by `checkPuzzle` is a fixed point: a second call on
the mutated grid changes nothing and returns the same (complete, valid)
pair. -/
theorem claim_C9_checkPuzzle_fixpoint (psize : Nat) (g : Grid)
    (hsq : intSqrt psize * intSqrt psize = psize) :
    checkPuzzle psize ((checkPuzzle psize g).grid) = checkPuzzle psize g := by
  by_cases h : gridComplete psize g = true
  · rw [checkPuzzle_complete_case h]
    show checkPuzzle psize g = _
    rw [checkPuzzle_complete_case h]
  · have hf : gridComplete psize g = false := Bool.eq_false_iff.2 h
    rw [checkPuzzle_incomplete_case hf]
    show checkPuzzle psize (solveLoop psize g) = _
    have hfix : solveLoop psize (solveLoop psize g) = solveLoop psize g := by
      have hdef : solveLoop psize (solveLoop psize g)
          = solveLoopFuel psize (numZeros psize (solveLoop psize g) + 1)
            (solveLoop psize g) := rfl
      rw [hdef, solveLoopFuel_succ, solvePass_solveLoop psize hsq g]
      simp
    by_cases h2 : gridComplete psize (solveLoop psize g) = true
    · rw [checkPuzzle_complete_case h2, h2]
    · have h2f : gridComplete psize (solveLoop psize g) = false :=
        Bool.eq_false_iff.2 h2
      rw [checkPuzzle_incomplete_case h2f, hfix, h2f]

/-- Witness for C9 at the all-zero half grid `stuckGrid4`-like input: the
empty-bottom 4×4 grid from C6 reused through a fresh definition. -/
theorem claim_C9_checkPuzzle_fixpoint_witness :
    (intSqrt 4 * intSqrt 4 = 4) ∧
    checkPuzzle 4 ((checkPuzzle 4 emptyGrid4).grid)
      = checkPuzzle 4 emptyGrid4 :=
  ⟨by decide, claim_C9_checkPuzzle_fixpoint 4 emptyGrid4 (by decide)⟩

/-- C4: writes are disciplined: every solver operation (single unit, full
pass, and the whole of `checkPuzzle`) only ever changes in-range cells
that were zero, writing a value in `[1, psize]`; hence a grid whose cells
start in `[0, psize]` stays in `[0, psize]`. -/
theorem claim_C4_invariant_preserved (psize : Nat) (g : Grid)
    (hsq : intSqrt psize * intSqrt psize = psize) :
    (∀ i, i < psize →
      FramePreserved psize g (solve_row (i + 1) psize g).1) ∧
    (∀ i, i < psize →
      FramePreserved psize g (solve_col (i + 1) psize g).1) ∧
    (∀ idx, idx < psize →
      FramePreserved psize g (solve_subgrid (subgridStartRow idx psize)
        (subgridStartCol idx psize) psize g).1) ∧
    FramePreserved psize g (solvePass psize g).1 ∧
    FramePreserved psize g (checkPuzzle psize g).grid ∧
    ((∀ i j, 1 ≤ i → i ≤ psize → 1 ≤ j → j ≤ psize →
        0 ≤ g i j ∧ g i j ≤ (psize : Int)) →
      ∀ i j, 1 ≤ i → i ≤ psize → 1 ≤ j → j ≤ psize →
        0 ≤ (checkPuzzle psize g).grid i j ∧
          (checkPuzzle psize g).grid i j ≤ (psize : Int)) := by
  have hcheck : FramePreserved psize g (checkPuzzle psize g).grid := by
    by_cases h : gridComplete psize g = true
    · rw [checkPuzzle_complete_case h]
      exact framePreserved_refl psize g
    · rw [checkPuzzle_incomplete_case (Bool.eq_false_iff.2 h)]
      exact solveLoop_frame psize hsq (numZeros psize g + 1) g
  refine ⟨?_, ?_, ?_, (solvePass_spec psize g hsq).2.2, hcheck, ?_⟩
  · intro i hi
    exact solveUnit_frame (fun q hq =>
      rowPositions_range (by omega) (by omega) hq)
  · intro i hi
    exact solveUnit_frame (fun q hq =>
      colPositions_range (by omega) (by omega) hq)
  · intro idx hidx
    exact solveUnit_frame (fun q hq => subgridPositions_range hsq hidx hq)
  · intro hrange i j hi1 hi2 hj1 hj2
    by_cases hne : (checkPuzzle psize g).grid i j = g i j
    · rw [hne]
      exact hrange i j hi1 hi2 hj1 hj2
    · obtain ⟨-, -, -, -, -, b1, b2⟩ := hcheck i j hne
      omega

/-- Witness for C4 at the all-empty 4×4 grid (all cells in `[0, 4]`):
after `checkPuzzle`, cell (1, 1) is still in `[0, 4]`. -/
theorem claim_C4_invariant_preserved_witness :
    ((intSqrt 4 * intSqrt 4 = 4) ∧
      (∀ i j, 1 ≤ i → i ≤ 4 → 1 ≤ j → j ≤ 4 →
        0 ≤ emptyGrid4 i j ∧ emptyGrid4 i j ≤ (4 : Int))) ∧
    (0 ≤ (checkPuzzle 4 emptyGrid4).grid 1 1 ∧
      (checkPuzzle 4 emptyGrid4).grid 1 1 ≤ (4 : Int)) :=
  ⟨⟨by decide, fun i j _ _ _ _ => ⟨by simp [emptyGrid4], by simp [emptyGrid4]⟩⟩,
    (claim_C4_invariant_preserved 4 emptyGrid4 (by decide)).2.2.2.2.2
      (fun i j _ _ _ _ => ⟨by simp [emptyGrid4], by simp [emptyGrid4]⟩)
      1 1 (by decide) (by decide) (by decide) (by decide)⟩

theorem range_filter_eq_single {n c0 : Nat} (hc : c0 < n) :
    (List.range n).filter (fun k => k == c0) = [c0] := by
  induction n with
  | zero => omega
  | succ m ih =>
    rw [List.range_succ, List.filter_append]
    by_cases h : c0 = m
    · subst h
      have h1 : (List.range c0).filter (fun k => k == c0) = [] := by
        rw [List.filter_eq_nil_iff]
        intro a ha
        have := List.mem_range.1 ha
        simp only [beq_iff_eq]
        omega
      rw [h1]
      simp
    · have h1 : (List.range m).filter (fun k => k == c0) = [c0] :=
        ih (by omega)
      rw [h1]
      have h2 : ([m].filter (fun k => k == c0)) = [] := by
        rw [List.filter_eq_nil_iff]
        intro a ha
        simp only [List.mem_singleton] at ha
        subst ha
        simp only [beq_iff_eq]
        omega
      rw [h2]
      simp

theorem workerFold_single {g0 g1 : Grid}
    (f : Nat → Grid → Grid × Nat) (step : Grid × Nat → Nat → Grid × Nat)
    (hstep : ∀ gc k, step gc k = ((f k gc.1).1, gc.2 + (f k gc.1).2))
    (l : List Nat) (k : Nat) (hk : k ∈ l) (hnd : l.Nodup)
    (hbefore : ∀ k', k' ∈ l → k' ≠ k → f k' g0 = (g0, 0))
    (hfill : f k g0 = (g1, 1))
    (hafter : ∀ k', k' ∈ l → f k' g1 = (g1, 0)) :
    ∀ c0 : Nat, l.foldl step (g0, c0) = (g1, c0 + 1) := by
  induction l with
  | nil => cases hk
  | cons a rest ih =>
    intro c0
    rcases List.mem_cons.1 hk with rfl | hk'
    · have hstep1 : step (g0, c0) k = (g1, c0 + 1) := by
        rw [hstep, hfill]
      rw [List.foldl_cons, hstep1]
      exact workerFold_noop f step hstep rest
        (fun k' hk' => hafter k' (List.mem_cons_of_mem _ hk'))
    · have hane : a ≠ k := fun h => (List.nodup_cons.1 hnd).1 (h ▸ hk')
      have hstep0 : step (g0, c0) a = (g0, c0) := by
        rw [hstep, hbefore a (List.mem_cons_self a rest) hane]
        simp
      rw [List.foldl_cons, hstep0]
      exact ih hk' (List.nodup_cons.1 hnd).2
        (fun k' h1 h2 => hbefore k' (List.mem_cons_of_mem a h1) h2)
        (fun k' h1 => hafter k' (List.mem_cons_of_mem a h1)) c0

theorem zerosOf_nil_of_no_zero {g : Grid} {ps : List (Nat × Nat)}
    (h : ∀ q ∈ ps, g q.1 q.2 ≠ 0) : zerosOf g ps = [] := by
  rw [zerosOf, List.filter_eq_nil_iff]
  intro q hq
  simpa using h q hq

theorem workersNoop_of_no_zero {psize : Nat} {g : Grid}
    (hsq : intSqrt psize * intSqrt psize = psize)
    (hnz : ∀ i, i < psize → ∀ j, j < psize → g (i + 1) (j + 1) ≠ 0) :
    solve_rows_worker psize g = (g, 0) ∧
    solve_cols_worker psize g = (g, 0) ∧
    solve_subgrids_workers psize g = (g, 0) := by
  have hnz' : ∀ q : Nat × Nat, 1 ≤ q.1 → q.1 ≤ psize → 1 ≤ q.2 →
      q.2 ≤ psize → g q.1 q.2 ≠ 0 := by
    intro q h1 h2 h3 h4
    have := hnz (q.1 - 1) (by omega) (q.2 - 1) (by omega)
    rwa [Nat.sub_add_cancel h1, Nat.sub_add_cancel h3] at this
  have h0 : solve_rows_worker psize g = (g, 0) :=
    workerFold_noop (fun k g' => solve_row (k + 1) psize g')
      (fun gc k => ((solve_row (k + 1) psize gc.1).1,
        gc.2 + (solve_row (k + 1) psize gc.1).2))
      (fun gc k => rfl) (List.range psize)
      (fun k hk => solveUnit_no_zero (zerosOf_nil_of_no_zero (fun q hq => by
        obtain ⟨a1, a2, a3, a4⟩ := rowPositions_range
          (by omega) (by have := List.mem_range.1 hk; omega) hq
        exact hnz' q a1 a2 a3 a4)))
  have h1 : solve_cols_worker psize g = (g, 0) :=
    workerFold_noop (fun k g' => solve_col (k + 1) psize g')
      (fun gc k => ((solve_col (k + 1) psize gc.1).1,
        gc.2 + (solve_col (k + 1) psize gc.1).2))
      (fun gc k => rfl) (List.range psize)
      (fun k hk => solveUnit_no_zero (zerosOf_nil_of_no_zero (fun q hq => by
        obtain ⟨a1, a2, a3, a4⟩ := colPositions_range
          (by omega) (by have := List.mem_range.1 hk; omega) hq
        exact hnz' q a1 a2 a3 a4)))
  have h2 : solve_subgrids_workers psize g = (g, 0) :=
    workerFold_noop
      (fun k g' => solve_subgrid (subgridStartRow k psize)
        (subgridStartCol k psize) psize g')
      (fun gc k => ((solve_subgrid (subgridStartRow k psize)
          (subgridStartCol k psize) psize gc.1).1,
        gc.2 + (solve_subgrid (subgridStartRow k psize)
          (subgridStartCol k psize) psize gc.1).2))
      (fun gc k => rfl) (List.range psize)
      (fun k hk => solveUnit_no_zero (zerosOf_nil_of_no_zero (fun q hq => by
        obtain ⟨a1, a2, a3, a4⟩ :=
          subgridPositions_range hsq (List.mem_range.1 hk) hq
        exact hnz' q a1 a2 a3 a4)))
  exact ⟨h0, h1, h2⟩

theorem solvePass_noop_of_no_zero {psize : Nat} {g : Grid}
    (hsq : intSqrt psize * intSqrt psize = psize)
    (hnz : ∀ i, i < psize → ∀ j, j < psize → g (i + 1) (j + 1) ≠ 0) :
    solvePass psize g = (g, 0) := by
  obtain ⟨h0, h1, h2⟩ := workersNoop_of_no_zero hsq hnz
  simp [solvePass, h0, h1, h2]

theorem solve_row_single_zero {n r0 c0 : Nat} {g : Grid}
    (_hr0 : r0 < n) (hc0 : c0 < n)
    (huniq : ∀ j, j < n → (g (r0 + 1) (j + 1) = 0 ↔ j = c0))
    (hdist : ∀ j1, j1 < n → ∀ j2, j2 < n → j1 ≠ j2 →
      g (r0 + 1) (j1 + 1) ≠ g (r0 + 1) (j2 + 1))
    (hrange : ∀ j, j < n → j ≠ c0 →
      1 ≤ g (r0 + 1) (j + 1) ∧ g (r0 + 1) (j + 1) ≤ (n : Int)) :
    ∃ v : Int, 1 ≤ v ∧ v ≤ (n : Int) ∧
      v = expectedSum n - (inRangeCells n g (rowPositions (r0 + 1) n)).sum ∧
      solve_row (r0 + 1) n g = (gridSet g (r0 + 1) (c0 + 1) v, 1) ∧
      is_row_valid (r0 + 1) n (gridSet g (r0 + 1) (c0 + 1) v) = true := by
  have hzeros : zerosOf g (rowPositions (r0 + 1) n) = [(r0 + 1, c0 + 1)] := by
    rw [zerosOf, rowPositions, List.filter_map]
    have hcongr : (List.range n).filter
        ((fun p : Nat × Nat => g p.1 p.2 == 0) ∘ fun k => (r0 + 1, k + 1))
        = (List.range n).filter (fun k => k == c0) := by
      apply List.filter_congr
      intro k hk
      have hkn := List.mem_range.1 hk
      by_cases h : k = c0
      · subst h
        simp [Function.comp, (huniq k hkn).2 rfl]
      · have hne : g (r0 + 1) (k + 1) ≠ 0 := fun hc => h ((huniq k hkn).1 hc)
        simp [Function.comp, hne, h]
    rw [hcongr, range_filter_eq_single hc0]
    rfl
  have hL1 : inRangeCells n g (rowPositions (r0 + 1) n)
      = ((List.range n).filter (fun k => !(k == c0))).map
          (fun k => g (r0 + 1) (k + 1)) := by
    rw [inRangeCells, unitCells, rowPositions, List.map_map, List.filter_map]
    refine congrArg _ (List.filter_congr ?_)
    intro k hk
    have hkn := List.mem_range.1 hk
    by_cases h : k = c0
    · subst h
      have h0 : g (r0 + 1) (k + 1) = 0 := (huniq k hkn).2 rfl
      simp [Function.comp, h0]
    · obtain ⟨hl, hr⟩ := hrange k hkn h
      have hl' : (0 : Int) < g (r0 + 1) (k + 1) := by omega
      simp [Function.comp, h, decide_eq_true hl', decide_eq_true hr]
  have hL : inRangeCells n g (rowPositions (r0 + 1) n)
      = ((List.range n).erase c0).map (fun k => g (r0 + 1) (k + 1)) := by
    rw [hL1, (List.nodup_range n).erase_eq_filter]
    exact congrArg _ (List.filter_congr (fun a _ => rfl))
  have hlenL : (inRangeCells n g (rowPositions (r0 + 1) n)).length
      = n - 1 := by
    rw [hL, List.length_map, List.length_erase_of_mem (List.mem_range.2 hc0),
      List.length_range]
  have hndL : (inRangeCells n g (rowPositions (r0 + 1) n)).Nodup := by
    rw [hL]
    refine List.Nodup.map_on ?_ ((List.nodup_range n).erase c0)
    intro x hx y hy hxy
    by_contra hne
    exact hdist x (List.mem_range.1 (List.mem_of_mem_erase hx))
      y (List.mem_range.1 (List.mem_of_mem_erase hy)) hne hxy
  have hmemL : ∀ k, k < n → k ≠ c0 →
      g (r0 + 1) (k + 1) ∈ inRangeCells n g (rowPositions (r0 + 1) n) := by
    intro k hk hkc
    rw [hL]
    exact List.mem_map.2
      ⟨k, (List.mem_erase_of_ne hkc).2 (List.mem_range.2 hk), rfl⟩
  have hsubL : ∀ x ∈ inRangeCells n g (rowPositions (r0 + 1) n),
      x ∈ targetList n := by
    rw [hL]
    intro x hx
    obtain ⟨k, hk, rfl⟩ := List.mem_map.1 hx
    exact mem_targetList.2
      (hrange k (List.mem_range.1 (List.mem_of_mem_erase hk))
        ((List.nodup_range n).mem_erase_iff.1 hk).1)
  have hex : ∃ w, w ∈ targetList n ∧
      w ∉ inRangeCells n g (rowPositions (r0 + 1) n) := by
    by_contra hno
    push_neg at hno
    have hle := (List.subperm_of_subset (targetList_nodup n)
      (fun w hw => hno w hw)).length_le
    rw [targetList_length, hlenL] at hle
    omega
  obtain ⟨w, hwT, hwL⟩ := hex
  have hperm : (w :: inRangeCells n g (rowPositions (r0 + 1) n)).Perm
      (targetList n) := by
    refine (List.subperm_of_subset (List.nodup_cons.2 ⟨hwL, hndL⟩)
      ?_).perm_of_length_le ?_
    · intro x hx
      rcases List.mem_cons.1 hx with rfl | hx'
      · exact hwT
      · exact hsubL x hx'
    · rw [targetList_length, List.length_cons, hlenL]
      omega
  have hwval : w = expectedSum n
      - (inRangeCells n g (rowPositions (r0 + 1) n)).sum := by
    have hs := hperm.sum_eq
    rw [targetList_sum, List.sum_cons] at hs
    omega
  obtain ⟨hw1, hw2⟩ := mem_targetList.1 hwT
  have hfill : solve_row (r0 + 1) n g
      = (gridSet g (r0 + 1) (c0 + 1) w, 1) := by
    have h := ((solveUnit_eq n g (rowPositions (r0 + 1) n)).2
      (r0 + 1, c0 + 1) hzeros).1
    rw [← hwval] at h
    exact h ⟨by omega, hw2, hwL⟩
  have hval : is_row_valid (r0 + 1) n (gridSet g (r0 + 1) (c0 + 1) w)
      = true := by
    rw [is_row_valid_iff]
    have hcell : ∀ k, k < n →
        gridSet g (r0 + 1) (c0 + 1) w (r0 + 1) (k + 1)
          = if k = c0 then w else g (r0 + 1) (k + 1) := by
      intro k hk
      by_cases h : k = c0
      · subst h
        simp [gridSet]
      · rw [gridSet, if_neg (by
          rintro ⟨-, h2⟩
          omega), if_neg h]
    refine (List.subperm_of_subset ?_ ?_).perm_of_length_le ?_
    · rw [unitCells, rowPositions, List.map_map]
      refine List.Nodup.map_on ?_ (List.nodup_range n)
      intro x hx y hy hxy
      have hx' := List.mem_range.1 hx
      have hy' := List.mem_range.1 hy
      by_contra hne
      simp only [Function.comp] at hxy
      rw [hcell x hx', hcell y hy'] at hxy
      by_cases hxc : x = c0
      · subst hxc
        rw [if_pos rfl, if_neg (fun h => hne h.symm)] at hxy
        exact hwL (hxy ▸ hmemL y hy' (fun h => hne h.symm))
      · by_cases hyc : y = c0
        · subst hyc
          rw [if_neg hxc, if_pos rfl] at hxy
          exact hwL (hxy ▸ hmemL x hx' hxc)
        · rw [if_neg hxc, if_neg hyc] at hxy
          exact hdist x hx' y hy' hne hxy
    · intro z hz
      rw [unitCells, rowPositions, List.map_map] at hz
      obtain ⟨k, hk, rfl⟩ := List.mem_map.1 hz
      have hk' := List.mem_range.1 hk
      show ((fun p : Nat × Nat => gridSet g (r0 + 1) (c0 + 1) w p.1 p.2) ∘
        fun k => (r0 + 1, k + 1)) k ∈ targetList n
      simp only [Function.comp]
      rw [hcell k hk']
      by_cases h : k = c0
      · rw [if_pos h]
        exact hwT
      · rw [if_neg h]
        exact mem_targetList.2 (hrange k hk' h)
    · rw [targetList_length, unitCells_length, rowPositions_length]
  exact ⟨w, hw1, hw2, hwval, hfill, hval⟩

/-- C7: on a grid whose unique zero lies at (r0+1, c0+1) in a row whose
other cells are distinct in-range values, the first pass fills that cell
with the unique correct value and reports shared counter 1, the next pass
makes no progress, and the solve loop's result is exactly that one fill
(whose row then validates). -/
theorem claim_C7_single_zero_row (psize : Nat) (g : Grid) (r0 c0 : Nat)
    (hr0 : r0 < psize) (hc0 : c0 < psize)
    (hsq : intSqrt psize * intSqrt psize = psize)
    (huniq : ∀ i, i < psize → ∀ j, j < psize →
      (g (i + 1) (j + 1) = 0 ↔ (i = r0 ∧ j = c0)))
    (hdist : ∀ j1, j1 < psize → ∀ j2, j2 < psize → j1 ≠ j2 →
      g (r0 + 1) (j1 + 1) ≠ g (r0 + 1) (j2 + 1))
    (hrange : ∀ j, j < psize → j ≠ c0 →
      1 ≤ g (r0 + 1) (j + 1) ∧ g (r0 + 1) (j + 1) ≤ (psize : Int)) :
    ∃ v : Int, 1 ≤ v ∧ v ≤ (psize : Int) ∧
      v = expectedSum psize
        - (inRangeCells psize g (rowPositions (r0 + 1) psize)).sum ∧
      solvePass psize g = (gridSet g (r0 + 1) (c0 + 1) v, 1) ∧
      (solvePass psize (gridSet g (r0 + 1) (c0 + 1) v)).2 = 0 ∧
      solveLoop psize g = gridSet g (r0 + 1) (c0 + 1) v ∧
      is_row_valid (r0 + 1) psize (gridSet g (r0 + 1) (c0 + 1) v) = true := by
  obtain ⟨v, hv1, hv2, hveq, hfill, hvalid⟩ :=
    solve_row_single_zero hr0 hc0
      (fun j hj => (huniq r0 hr0 j hj).trans (by simp)) hdist hrange
  set g1 := gridSet g (r0 + 1) (c0 + 1) v with hg1
  have hnz1 : ∀ i, i < psize → ∀ j, j < psize → g1 (i + 1) (j + 1) ≠ 0 := by
    intro i hi j hj
    rw [hg1, gridSet]
    by_cases h : i + 1 = r0 + 1 ∧ j + 1 = c0 + 1
    · rw [if_pos h]
      omega
    · rw [if_neg h]
      intro hzero
      obtain ⟨hi', hj'⟩ := (huniq i hi j hj).1 hzero
      exact h ⟨by omega, by omega⟩
  have hrownz : ∀ k, k < psize → k ≠ r0 →
      solve_row (k + 1) psize g = (g, 0) := by
    intro k hk hkr
    apply solveUnit_no_zero
    apply zerosOf_nil_of_no_zero
    intro q hq
    simp only [rowPositions, List.mem_map, List.mem_range] at hq
    obtain ⟨j, hj, rfl⟩ := hq
    intro hzero
    obtain ⟨hik, -⟩ := (huniq k hk j hj).1 hzero
    exact hkr hik
  have haft : ∀ k, k < psize → solve_row (k + 1) psize g1 = (g1, 0) := by
    intro k hk
    apply solveUnit_no_zero
    apply zerosOf_nil_of_no_zero
    intro q hq
    simp only [rowPositions, List.mem_map, List.mem_range] at hq
    obtain ⟨j, hj, rfl⟩ := hq
    exact hnz1 k hk j hj
  have hrows : solve_rows_worker psize g = (g1, 1) :=
    workerFold_single (fun k g' => solve_row (k + 1) psize g')
      (fun gc k => ((solve_row (k + 1) psize gc.1).1,
        gc.2 + (solve_row (k + 1) psize gc.1).2))
      (fun gc k => rfl) (List.range psize) r0 (List.mem_range.2 hr0)
      (List.nodup_range psize)
      (fun k' hk' hne => hrownz k' (List.mem_range.1 hk') hne)
      hfill
      (fun k' hk' => haft k' (List.mem_range.1 hk')) 0
  obtain ⟨hrowsN, hcolsN, hsubsN⟩ := workersNoop_of_no_zero hsq hnz1
  have hpass : solvePass psize g = (g1, 1) := by
    simp [solvePass, hrows, hcolsN, hsubsN]
  have hpass1noop : solvePass psize g1 = (g1, 0) :=
    solvePass_noop_of_no_zero hsq hnz1
  have hzero0 : g (r0 + 1) (c0 + 1) = 0 :=
    (huniq r0 hr0 c0 hc0).2 ⟨rfl, rfl⟩
  have hnumz : numZeros psize g = numZeros psize g1 + 1 := by
    have := @numZeros_gridSet psize g (r0 + 1) (c0 + 1) v
      (by omega) (by omega) (by omega) (by omega) hzero0 (by omega)
    rw [← hg1] at this
    omega
  have hloop : solveLoop psize g = g1 := by
    have hdef : solveLoop psize g
        = solveLoopFuel psize (numZeros psize g + 1) g := rfl
    rw [hdef, hnumz, solveLoopFuel_succ, hpass]
    simp only [Nat.lt_irrefl, gt_iff_lt, Nat.zero_lt_one, if_pos]
    rw [solveLoopFuel_succ, hpass1noop]
    simp
  exact ⟨v, hv1, hv2, hveq, hpass, by rw [hpass1noop], hloop, hvalid⟩

/-- Witness for C7 at scenario C. -/
theorem claim_C7_single_zero_row_witness :
    ((0 : Nat) < 4 ∧ (intSqrt 4 * intSqrt 4 = 4) ∧
      (∀ i, i < 4 → ∀ j, j < 4 →
        (scenCGrid4 (i + 1) (j + 1) = 0 ↔ (i = 0 ∧ j = 0))) ∧
      (∀ j1, j1 < 4 → ∀ j2, j2 < 4 → j1 ≠ j2 →
        scenCGrid4 1 (j1 + 1) ≠ scenCGrid4 1 (j2 + 1)) ∧
      (∀ j, j < 4 → j ≠ 0 →
        1 ≤ scenCGrid4 1 (j + 1) ∧ scenCGrid4 1 (j + 1) ≤ (4 : Int))) ∧
    (∃ v : Int, 1 ≤ v ∧ v ≤ (4 : Int) ∧
      v = expectedSum 4
        - (inRangeCells 4 scenCGrid4 (rowPositions 1 4)).sum ∧
      solvePass 4 scenCGrid4 = (gridSet scenCGrid4 1 1 v, 1) ∧
      (solvePass 4 (gridSet scenCGrid4 1 1 v)).2 = 0 ∧
      solveLoop 4 scenCGrid4 = gridSet scenCGrid4 1 1 v ∧
      is_row_valid 1 4 (gridSet scenCGrid4 1 1 v) = true) :=
  ⟨⟨by decide, by decide, by decide, by decide, by decide⟩,
    claim_C7_single_zero_row 4 scenCGrid4 0 0 (by decide) (by decide)
      (by decide) (by decide) (by decide) (by decide)⟩
